import Mathlib

/-!
Verification development for the goclaw multi-tier memory subsystem.

This file gives a shallow embedding of the memory core of the repository
(packages `internal/memory` and `internal/vector`) and settles the frozen
claims about it.

Modelling conventions:
* Go `float32`/`float64` values are modelled as `FQ := Option ℚ`: `some q`
  is the finite value `q`, `none` stands for a non-finite value (NaN / Inf).
  Arithmetic is exact (rounding is abstracted away); `0/0` and `x/0` yield
  `none`, and comparisons against `none` are `false`, mirroring IEEE-754
  comparison semantics for NaN.  Every concrete input used in a theorem
  below only exercises operations that are exact in IEEE-754 (sums and
  products of small integers, `sqrt` of `0` and of perfect squares whose
  Newton iteration is stationary), so on those traces the model agrees
  bit-for-bit with the Go program.
* `math.Sqrt` (an external libm routine, only used by `vector.Similarity`)
  is abstracted as an arbitrary function `ℚ → ℚ`; the homemade Newton
  `sqrt` of `internal/memory/vector_memory.go` is embedded literally.
* Go maps are modelled as association lists with unique keys; map iteration
  order is the list order (one admissible order of the nondeterministic Go
  iteration).  `sort.Slice` is modelled as an insertion sort with the same
  comparator; the hand-written exchange sort of `VectorMemory.Search` is
  embedded literally.
* File I/O and JSON (de)serialisation are external to the core: the
  persistence file is modelled as the structured document (a list of
  id/entry pairs), `json.Marshal`/`Unmarshal` as the identity on it, and
  `os.ReadFile` outcomes as a three-way input (missing / malformed / doc).
* `time.Time` is modelled as an `Int` of Unix nanoseconds; the network
  embedder (`vector.OllamaEmbedder`) is an external capability modelled as
  an abstract function `String → Except String (List ℚ)`.
-/

set_option maxHeartbeats 1000000

/-! ## Abstract float model -/

/-- A Go floating-point value: `some q` is a finite value, `none` is
non-finite (NaN or infinity). -/
abbrev FQ := Option ℚ

/-- Float addition; non-finite operands propagate. -/
def fadd : FQ → FQ → FQ
  | some a, some b => some (a + b)
  | _, _ => none

/-- Float multiplication; non-finite operands propagate. -/
def fmul : FQ → FQ → FQ
  | some a, some b => some (a * b)
  | _, _ => none

/-- Float division: division by zero and non-finite operands produce a
non-finite result. -/
def fdiv : FQ → FQ → FQ
  | some a, some b => if b = 0 then none else some (a / b)
  | _, _ => none

/-- Float strict `<`: any comparison involving a non-finite value is
`false` (IEEE-754 NaN semantics; infinities do not occur on the traces
this development evaluates). -/
def flt : FQ → FQ → Bool
  | some a, some b => decide (a < b)
  | _, _ => false

/-- Float `>`. -/
def fgt (x y : FQ) : Bool := flt y x

/-- Float `>=`: `false` whenever an operand is non-finite. -/
def fge : FQ → FQ → Bool
  | some a, some b => decide (b ≤ a)
  | _, _ => false

/-- Float equality test against zero (`x == 0` in Go); `NaN == 0` is
`false`. -/
def fIsZero : FQ → Bool
  | some a => decide (a = 0)
  | none => false

/-! ## internal/memory: data model -/

/-- A value of the open metadata bag (`map[string]interface{}`); only
string and integer values occur in the repository. -/
inductive MetaValue where
  | str (s : String)
  | int (n : Int)
deriving DecidableEq, Repr

/-- `MemoryType` from `internal/memory/memory.go`. -/
inductive MemoryType where
  | short
  | long
  | working
deriving DecidableEq, Repr

/-- `MemoryEntry` from `internal/memory/memory.go`.  `timestamp` is Unix
nanoseconds; `embedding` models the `[]float32` slice (`[]` is Go `nil`). -/
structure MemoryEntry where
  ID : String
  type : MemoryType
  content : String
  timestamp : Int
  metadata : List (String × MetaValue)
  embedding : List ℚ
deriving DecidableEq, Repr

instance : Inhabited MemoryEntry :=
  ⟨{ ID := "", type := .short, content := "", timestamp := 0, metadata := [], embedding := [] }⟩

/-- `time.Time.Unix()`: nanoseconds to whole seconds. -/
def unixSeconds (ns : Int) : Int := ns / 1000000000

/-- `time.Hour` in nanoseconds. -/
def nsPerHour : Int := 3600000000000

/-! ## internal/memory/conversation buffer -/

/-- `ConversationBuffer`.  The doubly-linked list is modelled as a `List`
with the head at the front (oldest first); the identifier→node index is
implicit: with the pairwise-distinct identifiers the store generates,
removing the indexed node is removing the unique entry with that ID. -/
structure ConversationBuffer where
  maxSize : Nat
  buffer : List MemoryEntry
deriving DecidableEq, Repr

/-- `NewConversationBuffer`. -/
def NewConversationBuffer (maxSize : Int) : ConversationBuffer :=
  { maxSize := if maxSize ≤ 0 then 50 else maxSize.toNat, buffer := [] }

/-- `ConversationBuffer.Add`: evict the oldest entry when at capacity, then
push at the tail. -/
def ConversationBuffer.add (cb : ConversationBuffer) (entry : MemoryEntry) :
    ConversationBuffer :=
  let b := if cb.buffer.length ≥ cb.maxSize then cb.buffer.drop 1 else cb.buffer
  { cb with buffer := b ++ [entry] }

/-- `ConversationBuffer.GetRecent`: walk from the back, most recent first. -/
def ConversationBuffer.getRecent (cb : ConversationBuffer) (count : Int) :
    List MemoryEntry :=
  cb.buffer.reverse.take count.toNat

/-- `ConversationBuffer.Remove`: drop the entry the index maps `id` to
(the unique entry with that ID). -/
def ConversationBuffer.remove (cb : ConversationBuffer) (id : String) :
    ConversationBuffer :=
  { cb with buffer := cb.buffer.eraseP (fun e => e.ID == id) }

/-- `ConversationBuffer.Len`. -/
def ConversationBuffer.len (cb : ConversationBuffer) : Nat := cb.buffer.length

/-- `ConversationBuffer.Clear`. -/
def ConversationBuffer.clear (cb : ConversationBuffer) : ConversationBuffer :=
  { cb with buffer := [] }

/-! ## internal/memory/working memory -/

/-- `WorkingItem` from `internal/memory/working_memory.go`. -/
structure WorkingItem where
  ID : String
  content : String
  priority : Int
  timestamp : Int
deriving DecidableEq, Repr

instance : Inhabited WorkingItem := ⟨{ ID := "", content := "", priority := 0, timestamp := 0 }⟩

/-- `WorkingMemory`: the `WorkingHeap` slice in heap-internal order. -/
structure WorkingMemory where
  items : List WorkingItem
deriving DecidableEq, Repr

/-- The sift-up of `container/heap.Push` for `WorkingHeap`
(`Less i j ↔ items[i].priority > items[j].priority`, a max-heap). -/
def heapUp (l : List WorkingItem) (j : Nat) : List WorkingItem :=
  if h : j = 0 then l
  else
    let i := (j - 1) / 2
    let pj := (l.get? j).getD default
    let pi := (l.get? i).getD default
    if pj.priority > pi.priority then heapUp ((l.set i pj).set j pi) i else l
termination_by j
decreasing_by simp_wf; omega

/-- `NewWorkingMemory` (the capacity only pre-sizes the slice). -/
def NewWorkingMemory (_maxSize : Int) : WorkingMemory := { items := [] }

/-- `WorkingMemory.Add`: read the `priority` metadata (default 0), then
`heap.Push`. -/
def WorkingMemory.add (wm : WorkingMemory) (entry : MemoryEntry) : WorkingMemory :=
  let priority := match entry.metadata.lookup "priority" with
    | some (.int p) => p
    | _ => 0
  let item : WorkingItem :=
    { ID := entry.ID, content := entry.content, priority := priority,
      timestamp := entry.timestamp }
  { items := heapUp (wm.items ++ [item]) wm.items.length }

/-- `WorkingMemory.GetAll`: exposes the slice in heap-internal order,
projected back to `MemoryEntry` (type/metadata/embedding are zero). -/
def WorkingMemory.getAll (wm : WorkingMemory) : List MemoryEntry :=
  wm.items.map (fun item =>
    { ID := item.ID, type := .short, content := item.content,
      timestamp := item.timestamp, metadata := [], embedding := [] })

/-- `WorkingMemory.Len`. -/
def WorkingMemory.len (wm : WorkingMemory) : Nat := wm.items.length

/-- `WorkingMemory.Clear`. -/
def WorkingMemory.clear (_wm : WorkingMemory) : WorkingMemory := { items := [] }

/-! ## internal/memory/vector_memory.go -/

/-- The hand-written Newton iteration `z = (z + x/z) / 2` of the local
`sqrt` helper; note `x/z` is a float division, so `0/0` is NaN. -/
def sqrtLoop (x : FQ) : FQ → Nat → FQ
  | z, 0 => z
  | z, n + 1 => sqrtLoop x (fdiv (fadd z (fdiv x z)) (some 2)) n

/-- The local `sqrt` of `internal/memory/vector_memory.go`: clamp negative
input to 0, start from `x/2`, 20 Newton iterations. -/
def sqrtGo (x : FQ) : FQ :=
  if flt x (some 0) then some 0
  else sqrtLoop x (fdiv x (some 2)) 20

/-- `cosineSimilarity` from `internal/memory/vector_memory.go`.  Inputs are
finite vectors; the accumulation of dot product and squared norms is exact. -/
def cosineSimilarity (a b : List ℚ) : FQ :=
  if a.length ≠ b.length ∨ a.length = 0 then some 0
  else
    let dotProduct := (List.zipWith (· * ·) a b).foldl (· + ·) 0
    let normA2 := (a.map (fun x => x * x)).foldl (· + ·) 0
    let normB2 := (b.map (fun x => x * x)).foldl (· + ·) 0
    let normA := sqrtGo (some normA2)
    let normB := sqrtGo (some normB2)
    if fIsZero normA || fIsZero normB then some 0
    else fdiv (some dotProduct) (fmul normA normB)

/-- `MemoryMetadata` of `internal/memory/vector_memory.go`. -/
structure MemMetadata where
  ID : String
  content : String
  timestamp : Int
deriving DecidableEq, Repr

/-- Projection of a search hit, `SearchResult` of `internal/memory`. -/
structure MemSearchResult where
  ID : String
  score : FQ
  content : String
  metadata : MemMetadata
deriving DecidableEq, Repr

/-- `VectorMemory`: the two Go maps (`entries`, `vectors`) as association
lists with unique keys; list order is the map iteration order. -/
structure VectorMemory where
  entries : List (String × MemoryEntry)
  vectors : List (String × List ℚ)
deriving DecidableEq, Repr

/-- Go map insertion: replace any existing binding of the key. -/
def mapUpsert {β : Type} (k : String) (v : β) (l : List (String × β)) :
    List (String × β) :=
  (k, v) :: l.filter (fun p => p.1 ≠ k)

/-- `NewVectorMemory`. -/
def NewVectorMemory : VectorMemory := { entries := [], vectors := [] }

/-- `VectorMemory.Add`: store entry and embedding under the entry ID. -/
def VectorMemory.add (vm : VectorMemory) (entry : MemoryEntry) (embedding : List ℚ) :
    VectorMemory :=
  { entries := mapUpsert entry.ID entry vm.entries,
    vectors := mapUpsert entry.ID embedding vm.vectors }

/-- One outer iteration of the exchange sort in `VectorMemory.Search`:
scan the tail, swapping into the pivot whenever a strictly greater score is
found.  Returns the final pivot and the rewritten tail. -/
def exchangePass (cur : String × FQ) : List (String × FQ) →
    ((String × FQ) × List (String × FQ))
  | [] => (cur, [])
  | x :: xs =>
    if fgt x.2 cur.2 then
      let r := exchangePass x xs
      (r.1, cur :: r.2)
    else
      let r := exchangePass cur xs
      (r.1, x :: r.2)

/-- The full double loop `for i; for j > i: if sim_j > sim_i swap` of
`VectorMemory.Search`: one outer iteration per element.  The fuel is the
number of remaining outer iterations — `exchangePass` keeps the tail's
length, so starting the fuel at the list length runs the loop to
completion exactly as the Go `for i` does. -/
def exchangeSortGo : Nat → List (String × FQ) → List (String × FQ)
  | 0, l => l
  | _, [] => []
  | fuel + 1, c :: rest =>
    let r := exchangePass c rest
    r.1 :: exchangeSortGo fuel r.2

/-- The sorting pass of `VectorMemory.Search` (non-ascending scores). -/
def exchangeSort (l : List (String × FQ)) : List (String × FQ) :=
  exchangeSortGo l.length l

/-- `VectorMemory.Search`: score every stored vector, exchange-sort by
descending similarity, truncate to `limit`, then project results through
the `entries` map (Go zero value for a missing entry). -/
def VectorMemory.search (vm : VectorMemory) (query : List ℚ) (limit : Int) :
    Except String (List MemSearchResult) :=
  let results := vm.vectors.map (fun p => (p.1, cosineSimilarity query p.2))
  let sorted := exchangeSort results
  let top := if (sorted.length : Int) > limit then sorted.take limit.toNat else sorted
  .ok (top.map (fun r =>
    let entry := (vm.entries.lookup r.1).getD default
    { ID := r.1, score := r.2, content := entry.content,
      metadata := { ID := "", content := entry.content,
                    timestamp := unixSeconds entry.timestamp } }))

/-- `VectorMemory.Get`: the Go function returns the pair `(entry, error)`,
and for an unknown identifier returns `(nil, nil)`. -/
def VectorMemory.get (vm : VectorMemory) (id : String) :
    Option MemoryEntry × Option String :=
  match vm.entries.lookup id with
  | none => (none, none)
  | some entry => (some entry, none)

/-- `VectorMemory.Len`. -/
def VectorMemory.len (vm : VectorMemory) : Nat := vm.entries.length

/-- `VectorMemory.Clear`. -/
def VectorMemory.clear (_vm : VectorMemory) : VectorMemory := { entries := [], vectors := [] }


/-! ## internal/memory/memory.go: the orchestrator -/

/-- `MemoryConfig`. -/
structure MemoryConfig where
  shortTermMax : Int
  workingMax : Int
  similarityCut : ℚ
deriving DecidableEq, Repr

/-- `MemoryStore`. -/
structure MemoryStore where
  shortTerm : ConversationBuffer
  longTerm : VectorMemory
  workingSet : WorkingMemory
  config : MemoryConfig
deriving DecidableEq, Repr

/-- `NewMemoryStore`. -/
def NewMemoryStore (config : MemoryConfig) : MemoryStore :=
  { config := config,
    shortTerm := NewConversationBuffer config.shortTermMax,
    longTerm := NewVectorMemory,
    workingSet := NewWorkingMemory config.workingMax }

/-- `DefaultConfig`. -/
def DefaultConfig : MemoryConfig :=
  { shortTermMax := 50, workingMax := 10, similarityCut := 7 / 10 }

/-- `MemoryStore.AddShortTerm` (`nowNs` models `time.Now()`). -/
def MemoryStore.addShortTerm (m : MemoryStore) (content : String)
    (metadata : List (String × MetaValue)) (nowNs : Int) : MemoryStore :=
  let entry : MemoryEntry :=
    { ID := "st_" ++ toString nowNs, type := .short, content := content,
      timestamp := nowNs, metadata := metadata, embedding := [] }
  { m with shortTerm := m.shortTerm.add entry }

/-- `MemoryStore.AddLongTerm`. -/
def MemoryStore.addLongTerm (m : MemoryStore) (content : String)
    (embedding : List ℚ) (metadata : List (String × MetaValue)) (nowNs : Int) :
    Except String MemoryStore :=
  let entry : MemoryEntry :=
    { ID := "lt_" ++ toString nowNs, type := .long, content := content,
      timestamp := nowNs, metadata := metadata, embedding := [] }
  .ok { m with longTerm := m.longTerm.add entry embedding }

/-- `MemoryStore.AddWorking`. -/
def MemoryStore.addWorking (m : MemoryStore) (content : String)
    (priority : Int) (nowNs : Int) : MemoryStore :=
  let entry : MemoryEntry :=
    { ID := "wm_" ++ toString nowNs, type := .working, content := content,
      timestamp := nowNs, metadata := [("priority", .int priority)], embedding := [] }
  { m with workingSet := m.workingSet.add entry }

/-- Decimal rendering of a score, modelling `fmt.Sprintf("%.2f", s)`
(two fractional digits, round-to-nearest; NaN prints as `NaN`). -/
def formatScore2 : FQ → String
  | none => "NaN"
  | some q =>
    let sign := if q < 0 then "-" else ""
    let n : Int := ⌊|q| * 100 + 1 / 2⌋
    let ip := n / 100
    let fp := n % 100
    sign ++ toString ip ++ "." ++ (if fp < 10 then "0" else "") ++ toString fp

/-- Phase 1 of `GetContext`: append `[WORKING]` fragments, breaking once
`len(contextParts) >= maxTokens/3`. -/
def appendWorking : List MemoryEntry → Int → List String → List String
  | [], _, parts => parts
  | e :: rest, budget, parts =>
    if budget ≤ (parts.length : Int) then parts
    else appendWorking rest budget (parts ++ ["[WORKING]: " ++ e.content])

/-- The loop body of phase 2 of `GetContext`: append `[MEMORY (score)]`
fragments for results at or above the similarity cutoff, breaking once
`len(contextParts) >= maxTokens*2/3`. -/
def appendMemory : List MemSearchResult → Int → ℚ → List String → List String
  | [], _, _, parts => parts
  | r :: rest, budget, cut, parts =>
    if budget ≤ (parts.length : Int) then parts
    else if fge r.score (some cut) then
      appendMemory rest budget cut
        (parts ++ ["[MEMORY (" ++ formatScore2 r.score ++ ")]: " ++ r.content])
    else appendMemory rest budget cut parts

/-- Phase 2 of `GetContext`: the `if err == nil` guard around the loop —
a failed long-term search leaves the parts untouched. -/
def longTermPhase (res : Except String (List MemSearchResult)) (budget : Int)
    (cut : ℚ) (parts : List String) : List String :=
  match res with
  | .ok results => appendMemory results budget cut parts
  | .error _ => parts

/-- The final concatenation loop of `GetContext` (newline between parts). -/
def joinParts : List String → String
  | [] => ""
  | [p] => p
  | p :: rest => p ++ "\n" ++ joinParts rest

/-- `MemoryStore.GetContext`: phase 1 (`appendWorking`, budget
`maxTokens/3`), phase 2 (`longTermPhase` over the 5-candidate long-term
search, budget `maxTokens*2/3`), phase 3 (the 10 most recent short-term
entries, unconditionally), joined with newlines and returned with a nil
error.  Go `int` division truncates towards zero, hence `Int.tdiv`. -/
def MemoryStore.getContext (m : MemoryStore) (embedding : List ℚ)
    (maxTokens : Int) : Except String String :=
  .ok (joinParts
    (longTermPhase (m.longTerm.search embedding 5) ((maxTokens * 2).tdiv 3)
        m.config.similarityCut
        (appendWorking m.workingSet.getAll (maxTokens.tdiv 3) [])
      ++ (m.shortTerm.getRecent 10).map (fun e => "[RECENT]: " ++ e.content)))

/-- The external embedding capability (`vector.OllamaEmbedder.Embed`, a
network call): text to vector, or a transport error. -/
def EmbedFn : Type := String → Except String (List ℚ)

/-- The move performed on a consolidation candidate: `longTerm.Add` then
`shortTerm.Remove`. -/
def MemoryStore.moveToLongTerm (m : MemoryStore) (entry : MemoryEntry)
    (embedding : List ℚ) : MemoryStore :=
  { m with longTerm := m.longTerm.add entry embedding,
           shortTerm := m.shortTerm.remove entry.ID }

/-- One iteration of the `Consolidate` loop: candidates older than one
hour are embedded (if an embedder is configured) and moved; an embedding
error skips the candidate (`continue`). -/
def consolidateStep (embedder : Option EmbedFn) (nowNs : Int)
    (m : MemoryStore) (entry : MemoryEntry) : MemoryStore :=
  if nsPerHour < nowNs - entry.timestamp then
    match embedder with
    | some f =>
      match f entry.content with
      | .error _ => m
      | .ok emb => m.moveToLongTerm entry emb
    | none => m.moveToLongTerm entry []
  else m

/-- `MemoryStore.Consolidate`: iterate over the snapshot
`shortTerm.GetRecent(20)`; always returns `nil` error. -/
def MemoryStore.consolidate (m : MemoryStore) (embedder : Option EmbedFn)
    (nowNs : Int) : Except String MemoryStore :=
  .ok ((m.shortTerm.getRecent 20).foldl (consolidateStep embedder nowNs) m)

/-- `MemoryStore.Clear`. -/
def MemoryStore.clear (m : MemoryStore) : MemoryStore :=
  { m with shortTerm := m.shortTerm.clear, longTerm := m.longTerm.clear,
           workingSet := m.workingSet.clear }

/-- `MemoryStats` and `MemoryStore.Stats`. -/
structure MemoryStats where
  shortTermCount : Nat
  longTermCount : Nat
  workingCount : Nat
deriving DecidableEq, Repr

/-- `MemoryStore.Stats`. -/
def MemoryStore.stats (m : MemoryStore) : MemoryStats :=
  { shortTermCount := m.shortTerm.len, longTermCount := m.longTerm.len,
    workingCount := m.workingSet.len }

/-! ## internal/vector: embedding.go and store.go -/

/-- `vector.MemoryMetadata`. -/
structure VecMetadata where
  ID : String
  content : String
  timestamp : Int
  tags : List String
  custom : List (String × String)
deriving DecidableEq, Repr

/-- `vector.VectorEntry`. -/
structure VectorEntry where
  vector : List ℚ
  metadata : VecMetadata
deriving DecidableEq, Repr

/-- `vector.SearchResult`. -/
structure VecSearchResult where
  ID : String
  score : ℚ
  content : String
  metadata : VecMetadata
deriving DecidableEq, Repr

/-- `vector.Similarity` from `internal/vector/embedding.go`.  `math.Sqrt`
is an external libm routine, abstracted as `msqrt`; on the finite,
non-negative inputs it receives here it returns a finite value, so the
result type is a plain rational. -/
def Similarity (msqrt : ℚ → ℚ) (a b : List ℚ) : ℚ :=
  if a.length ≠ b.length then 0
  else
    let dotProduct := (List.zipWith (· * ·) a b).foldl (· + ·) 0
    let normA := msqrt ((a.map (fun x => x * x)).foldl (· + ·) 0)
    let normB := msqrt ((b.map (fun x => x * x)).foldl (· + ·) 0)
    if normA = 0 ∨ normB = 0 then 0
    else dotProduct / (normA * normB)

/-- `vector.InMemoryStore`: the `vectors` map as an association list; the
embedder field is external and unused by the operations embedded here. -/
structure InMemoryStore where
  vectors : List (String × VectorEntry)
deriving DecidableEq, Repr

/-- `NewInMemoryStore`. -/
def NewInMemoryStore : InMemoryStore := { vectors := [] }

/-- `InMemoryStore.Add` (`nowUnix` models `now()`); returns the generated
or provided identifier together with the new store. -/
def InMemoryStore.add (s : InMemoryStore) (vector : List ℚ)
    (metadata : VecMetadata) (nowUnix : Int) : String × InMemoryStore :=
  let id := if metadata.ID = "" then
      "vec_" ++ toString s.vectors.length ++ "_" ++ toString nowUnix
    else metadata.ID
  let md := { metadata with ID := id }
  (id, { vectors := mapUpsert id { vector := vector, metadata := md } s.vectors })

/-- Insertion of a scored entry into a list already sorted by descending
similarity; together with `sortScoredDesc` this models
`sort.Slice(results, ...similarity > ...)`. -/
def insertScoredDesc (x : String × VectorEntry × ℚ) :
    List (String × VectorEntry × ℚ) → List (String × VectorEntry × ℚ)
  | [] => [x]
  | y :: ys => if y.2.2 ≤ x.2.2 then x :: y :: ys else y :: insertScoredDesc x ys

/-- Sort by descending similarity (models `sort.Slice`). -/
def sortScoredDesc (l : List (String × VectorEntry × ℚ)) :
    List (String × VectorEntry × ℚ) :=
  l.foldr insertScoredDesc []

/-- `InMemoryStore.Search`: default the limit to 10 when non-positive,
score every entry with `Similarity`, sort descending, truncate, project. -/
def InMemoryStore.search (msqrt : ℚ → ℚ) (s : InMemoryStore) (query : List ℚ)
    (limit : Int) : Except String (List VecSearchResult) :=
  let limit := if limit ≤ 0 then 10 else limit
  let results := s.vectors.map (fun p => (p.1, p.2, Similarity msqrt query p.2.vector))
  let sorted := sortScoredDesc results
  let top := if (sorted.length : Int) > limit then sorted.take limit.toNat else sorted
  .ok (top.map (fun r =>
    { ID := r.1, score := r.2.2, content := r.2.1.metadata.content,
      metadata := r.2.1.metadata }))

/-- `InMemoryStore.Get`: unknown identifiers are an error. -/
def InMemoryStore.get (s : InMemoryStore) (id : String) :
    Except String VectorEntry :=
  match s.vectors.lookup id with
  | none => .error ("vector not found: " ++ id)
  | some e => .ok e

/-- `InMemoryStore.Delete`: unknown identifiers are an error. -/
def InMemoryStore.delete (s : InMemoryStore) (id : String) :
    Except String InMemoryStore :=
  match s.vectors.lookup id with
  | none => .error ("vector not found: " ++ id)
  | some _ => .ok { vectors := s.vectors.filter (fun p => p.1 ≠ id) }

/-- `InMemoryStore.Count`. -/
def InMemoryStore.count (s : InMemoryStore) : Nat := s.vectors.length

/-- `SerializedEntry`, the record written per identifier by `Save`. -/
structure SerializedEntry where
  vector : List ℚ
  metadata : VecMetadata
deriving DecidableEq, Repr

/-- The persistence document: the JSON object produced by `Save`, as the
structured identifier→record mapping (`json.Marshal`/`Unmarshal` and the
file system are external and modelled as the identity on this document). -/
abbrev SaveDoc : Type := List (String × SerializedEntry)

/-- `InMemoryStore.Save`: serialize the whole map (in iteration order). -/
def InMemoryStore.save (s : InMemoryStore) : SaveDoc :=
  s.vectors.map (fun p => (p.1, { vector := p.2.vector, metadata := p.2.metadata }))

/-- The three outcomes of `os.ReadFile` + `json.Unmarshal` in `Load`. -/
inductive LoadInput where
  | missing
  | malformed
  | doc (d : SaveDoc)

/-- `InMemoryStore.Load`: a missing file is success without touching the
store; a malformed file is an error; otherwise rebuild the map from the
document. -/
def InMemoryStore.load (s : InMemoryStore) : LoadInput → Except String InMemoryStore
  | .missing => .ok s
  | .malformed => .error "failed to unmarshal"
  | .doc d =>
    .ok { vectors := (List.foldl
      (fun acc p => mapUpsert p.1 { vector := p.2.vector, metadata := p.2.metadata } acc)
      [] d) }

/-! ## Fixtures: concrete stores and helper predicates used in the theorems below -/

/-- A consolidation candidate will be moved: either no embedder is
configured (promotion without a vector) or its embedding call succeeds. -/
def embedOk : Option EmbedFn → MemoryEntry → Prop
  | none, _ => True
  | some f, e => ∃ v, f e.content = .ok v

/-- The vector a moved candidate is stored with (`nil`, i.e. `[]`, when no
embedder is configured). -/
def embVal : Option EmbedFn → MemoryEntry → List ℚ
  | none, _ => []
  | some f, e =>
    match f e.content with
    | .ok v => v
    | .error _ => []

/-- A tiny concrete store for the round-trip witness. -/
def roundtripStore : InMemoryStore :=
  { vectors :=
    [("v1", { vector := [1, 0], metadata :=
        { ID := "v1", content := "one", timestamp := 5, tags := ["t"], custom := [("k", "v")] } }),
     ("v2", { vector := [0, 1], metadata :=
        { ID := "v2", content := "two", timestamp := 6, tags := [], custom := [] } })] }

/-- An entry of the counterexample buffer. -/
def ce (id : String) : MemoryEntry :=
  { ID := id, type := .short, content := id, timestamp := 0, metadata := [], embedding := [] }

/-- 21 stale entries, oldest first. -/
def c3buffer : List MemoryEntry :=
  [ce "a", ce "b", ce "c", ce "d", ce "e", ce "f", ce "g", ce "h", ce "i", ce "j",
   ce "k", ce "l", ce "m", ce "n", ce "o", ce "p", ce "q", ce "r", ce "s", ce "t", ce "u"]

def c3store : MemoryStore :=
  { shortTerm := { maxSize := 50, buffer := c3buffer },
    longTerm := NewVectorMemory,
    workingSet := { items := [] },
    config := DefaultConfig }

/-- A concrete always-failing embedder. -/
def failingEmbedder : EmbedFn := fun _ => .error "connection refused"

/-- Results sorted by non-ascending score, the float way: every earlier
score is `>=` every later one (false as soon as a NaN is involved). -/
def scoresDescending (rs : List MemSearchResult) : Prop :=
  rs.Pairwise (fun a b => fge a.score b.score = true)

/-- The C4 counterexample store: one zero-magnitude vector and one
perfect-square vector. -/
def c4vm : VectorMemory :=
  { entries :=
      [("za", { ID := "za", type := .long, content := "zero", timestamp := 0,
                metadata := [], embedding := [] }),
       ("zb", { ID := "zb", type := .long, content := "two", timestamp := 0,
                metadata := [], embedding := [] })],
    vectors := [("za", [0]), ("zb", [2])] }

/-- A long-term entry above the cutoff. -/
def gEntry : MemoryEntry :=
  { ID := "g", type := .long, content := "topic", timestamp := 0,
    metadata := [], embedding := [] }

/-- One active working item. -/
def wItem1 : WorkingItem := { ID := "w", content := "task", priority := 1, timestamp := 0 }

/-- The scenario store of the spec: one working item, one long-term entry
with a perfect similarity score, one short-term entry. -/
def c1Store : MemoryStore :=
  { shortTerm := { maxSize := 50, buffer := [ce "s"] },
    longTerm := { entries := [("g", gEntry)], vectors := [("g", [2])] },
    workingSet := { items := [wItem1] },
    config := DefaultConfig }

/-- The search hit for `gEntry`. -/
def gRes : MemSearchResult :=
  { ID := "g", score := some 1, content := "topic",
    metadata := { ID := "", content := "topic", timestamp := 0 } }

/-- Five zero-magnitude long-term vectors iterated ahead of the one
above-cutoff entry: their NaN scores occupy the whole top-5. -/
def c1NaNStore : MemoryStore :=
  { shortTerm := { maxSize := 50, buffer := [ce "s"] },
    longTerm :=
      { entries := [("z1", ce "z1"), ("z2", ce "z2"), ("z3", ce "z3"),
                    ("z4", ce "z4"), ("z5", ce "z5"), ("g", gEntry)],
        vectors := [("z1", [0]), ("z2", [0]), ("z3", [0]),
                    ("z4", [0]), ("z5", [0]), ("g", [2])] },
    workingSet := { items := [wItem1] },
    config := DefaultConfig }

/-! A tiny substring checker, used to state that a tag does NOT occur in a
produced context string. -/

/-- Does `pat` occur at the very start of `s`? -/
def begMatch : List Char → List Char → Bool
  | [], _ => true
  | _ :: _, [] => false
  | a :: pa, b :: sb => a == b && begMatch pa sb

/-- Does `pat` occur anywhere in `s`? -/
def hasSeg (pat : List Char) : List Char → Bool
  | [] => begMatch pat []
  | c :: rest => begMatch pat (c :: rest) || hasSeg pat rest

/-! ## Claim C2: bounded recency of the conversation buffer -/

theorem foldl_add_maxSize (es : List MemoryEntry) (cb : ConversationBuffer) :
    (es.foldl ConversationBuffer.add cb).maxSize = cb.maxSize := by
  induction es generalizing cb with
  | nil => rfl
  | cons e rest ih => simpa [List.foldl_cons] using ih (cb.add e)

theorem NewConversationBuffer_maxSize (N : Nat) (hN : 0 < N) :
    (NewConversationBuffer (N : Int)).maxSize = N := by
  simp only [NewConversationBuffer]
  split
  · omega
  · omega

/-- The buffer after any sequence of `Add` calls holds exactly the most
recent `N` inserts (all of them when fewer), in insertion order. -/
theorem foldl_add_buffer (N : Nat) (hN : 0 < N) (es : List MemoryEntry) :
    (es.foldl ConversationBuffer.add (NewConversationBuffer (N : Int))).buffer
      = es.drop (es.length - N) := by
  induction es using List.reverseRecOn with
  | nil => simp [NewConversationBuffer]
  | append_singleton es e ih =>
    rw [List.foldl_append, List.foldl_cons, List.foldl_nil]
    have hmax : (es.foldl ConversationBuffer.add (NewConversationBuffer (N : Int))).maxSize
        = N := by
      rw [foldl_add_maxSize, NewConversationBuffer_maxSize N hN]
    set cb := es.foldl ConversationBuffer.add (NewConversationBuffer (N : Int)) with hcb
    show (cb.add e).buffer = _
    by_cases hle : N ≤ es.length
    · have hlen : cb.buffer.length = N := by
        rw [ih, List.length_drop]; omega
      have hcond : cb.buffer.length ≥ cb.maxSize := by rw [hmax, hlen]
      simp only [ConversationBuffer.add, if_pos hcond]
      rw [ih, List.drop_drop]
      have hidx : (es ++ [e]).length - N ≤ es.length := by
        rw [List.length_append]; simp; omega
      rw [List.drop_append_of_le_length hidx]
      have : es.length - N + 1 = (es ++ [e]).length - N := by
        rw [List.length_append]; simp; omega
      rw [this]
    · have hlt : es.length < N := by omega
      have hlen : cb.buffer.length = es.length := by
        rw [ih]; simp; omega
      have hcond : ¬ (cb.buffer.length ≥ cb.maxSize) := by
        rw [hmax, hlen]; omega
      simp only [ConversationBuffer.add, if_neg hcond]
      rw [ih]
      have h1 : es.length - N = 0 := by omega
      have h2 : (es ++ [e]).length - N = 0 := by simp; omega
      rw [h1, h2, List.drop_zero, List.drop_zero]

/-- C2: after N+k Adds into a buffer of capacity N (k ≥ 0), the size is
exactly min(N+k, N) = N, the buffer holds exactly the N most recent
inserts in insertion order (each Add beyond capacity having evicted the
single oldest entry), and GetRecent(N) returns them most recent first. -/
theorem conversationBuffer_bounded_recency (N : Nat) (es : List MemoryEntry)
    (hN : 0 < N) (hlen : N ≤ es.length) :
    (es.foldl ConversationBuffer.add (NewConversationBuffer (N : Int))).len
        = min es.length N ∧
    (es.foldl ConversationBuffer.add (NewConversationBuffer (N : Int))).len = N ∧
    (es.foldl ConversationBuffer.add (NewConversationBuffer (N : Int))).buffer
        = es.drop (es.length - N) ∧
    (es.foldl ConversationBuffer.add (NewConversationBuffer (N : Int))).getRecent (N : Int)
        = (es.drop (es.length - N)).reverse := by
  have hbuf := foldl_add_buffer N hN es
  have hsize : (es.foldl ConversationBuffer.add (NewConversationBuffer (N : Int))).len = N := by
    rw [ConversationBuffer.len, hbuf, List.length_drop]; omega
  refine ⟨?_, hsize, hbuf, ?_⟩
  · rw [hsize]; omega
  · rw [ConversationBuffer.getRecent, hbuf]
    apply List.take_of_length_le
    rw [List.length_reverse, List.length_drop]
    omega

theorem conversationBuffer_bounded_recency_witness :
    let e1 : MemoryEntry :=
      { ID := "m1", type := .short, content := "a", timestamp := 1, metadata := [], embedding := [] }
    let e2 : MemoryEntry :=
      { ID := "m2", type := .short, content := "b", timestamp := 2, metadata := [], embedding := [] }
    let e3 : MemoryEntry :=
      { ID := "m3", type := .short, content := "c", timestamp := 3, metadata := [], embedding := [] }
    ([e1, e2, e3].foldl ConversationBuffer.add (NewConversationBuffer (2 : Int))).len
        = min 3 2 ∧
    ([e1, e2, e3].foldl ConversationBuffer.add (NewConversationBuffer (2 : Int))).len = 2 ∧
    ([e1, e2, e3].foldl ConversationBuffer.add (NewConversationBuffer (2 : Int))).buffer
        = [e1, e2, e3].drop 1 ∧
    ([e1, e2, e3].foldl ConversationBuffer.add (NewConversationBuffer (2 : Int))).getRecent 2
        = ([e1, e2, e3].drop 1).reverse := by
  intro e1 e2 e3
  exact conversationBuffer_bounded_recency 2 [e1, e2, e3] (by decide) (by decide)

/-! ## Association-list (Go map) lemmas -/

theorem lookup_filter_ne {β : Type} (m : List (String × β)) (a k : String) (hk : k ≠ a) :
    (m.filter (fun p => p.1 ≠ a)).lookup k = m.lookup k := by
  induction m with
  | nil => rfl
  | cons x xs ih =>
    obtain ⟨x1, x2⟩ := x
    rw [List.filter_cons]
    by_cases hx : x1 = a
    · have hdec : (decide (((x1, x2) : String × β).1 ≠ a)) = false := by simp [hx]
      rw [hdec]
      have h1 : (k == x1) = false := by subst hx; simp [hk]
      simp only [Bool.false_eq_true, if_false, ih, List.lookup, h1]
    · have hdec : (decide (((x1, x2) : String × β).1 ≠ a)) = true := by simp [hx]
      rw [hdec, if_pos rfl]
      by_cases hkx : k = x1
      · subst hkx; simp [List.lookup]
      · have h1 : (k == x1) = false := by simp [hkx]
        simp only [List.lookup, h1, ih]

theorem lookup_mapUpsert_self {β : Type} (m : List (String × β)) (a : String) (b : β) :
    (mapUpsert a b m).lookup a = some b := by
  simp [mapUpsert, List.lookup]

theorem lookup_mapUpsert_ne {β : Type} (m : List (String × β)) (a k : String) (b : β)
    (hk : k ≠ a) : (mapUpsert a b m).lookup k = m.lookup k := by
  have h1 : ¬ (k == a) = true := by simp [hk]
  simp only [mapUpsert, List.lookup, h1]
  exact lookup_filter_ne m a k hk

theorem lookup_eq_none_of_forall {β : Type} (m : List (String × β)) (k : String)
    (h : ∀ p ∈ m, p.1 ≠ k) : m.lookup k = none := by
  induction m with
  | nil => rfl
  | cons x xs ih =>
    have hx : x.1 ≠ k := h x (by simp)
    have h1 : ¬ (k == x.1) = true := by simp; exact fun hh => hx hh.symm
    simp only [List.lookup, h1]
    exact ih (fun p hp => h p (by simp [hp]))

/-- Folding Go map insertions over a list of pairs with pairwise-distinct
keys reproduces exactly the lookups of that list (entries absent from the
list fall through to the accumulator). -/
theorem foldl_mapUpsert_lookup {β : Type} (l : List (String × β))
    (acc : List (String × β)) (k : String)
    (hnd : l.Pairwise (fun p q => p.1 ≠ q.1)) :
    (List.foldl (fun m p => mapUpsert p.1 p.2 m) acc l).lookup k
      = (match l.lookup k with
         | some v => some v
         | none => acc.lookup k) := by
  induction l generalizing acc with
  | nil => simp [List.lookup]
  | cons x xs ih =>
    obtain ⟨x1, x2⟩ := x
    have hhead : ∀ q ∈ xs, x1 ≠ q.1 := by
      intro q hq; exact (List.pairwise_cons.mp hnd).1 q hq
    have htail : xs.Pairwise (fun p q => p.1 ≠ q.1) := (List.pairwise_cons.mp hnd).2
    rw [List.foldl_cons, ih (mapUpsert x1 x2 acc) htail]
    by_cases hk : k = x1
    · have hxs : xs.lookup k = none := by
        refine lookup_eq_none_of_forall xs k (fun p hp => ?_)
        rw [hk]
        exact (hhead p hp).symm
      rw [hxs, hk, lookup_mapUpsert_self]
      simp [List.lookup]
    · have h1 : (k == x1) = false := by simp [hk]
      rw [lookup_mapUpsert_ne acc x1 k x2 hk]
      simp only [List.lookup, h1]

/-! ## Claim C6: save/load round trip -/

/-- The `Load` fold over the serialized form of `vectors` is the plain
upsert fold over `vectors` (serialisation and deserialisation copy the
two fields). -/
theorem load_save_fold (l acc : List (String × VectorEntry)) :
    List.foldl
      (fun m p => mapUpsert p.1 { vector := p.2.vector, metadata := p.2.metadata } m)
      acc
      (l.map (fun p => (p.1,
        ({ vector := p.2.vector, metadata := p.2.metadata } : SerializedEntry))))
      = List.foldl (fun m p => mapUpsert p.1 p.2 m) acc l := by
  induction l generalizing acc with
  | nil => rfl
  | cons x xs ih => simp only [List.map_cons, List.foldl_cons]; exact ih _

/-- C6: Save followed by Load into a fresh store yields the same mapping:
for every identifier, the looked-up entry (vector and metadata record)
agrees with the store before the save; order of entries may differ. -/
theorem inMemoryStore_save_load_roundtrip (s : InMemoryStore)
    (hnd : s.vectors.Pairwise (fun p q => p.1 ≠ q.1)) :
    ∃ s2, NewInMemoryStore.load (.doc s.save) = .ok s2 ∧
      ∀ id, s2.vectors.lookup id = s.vectors.lookup id := by
  refine ⟨_, rfl, ?_⟩
  intro id
  show (List.foldl
    (fun m p => mapUpsert p.1 { vector := p.2.vector, metadata := p.2.metadata } m)
    [] s.save).lookup id = s.vectors.lookup id
  rw [InMemoryStore.save, load_save_fold s.vectors []]
  rw [foldl_mapUpsert_lookup s.vectors [] id hnd]
  cases h : s.vectors.lookup id <;> simp [List.lookup]


theorem inMemoryStore_save_load_roundtrip_witness :
    ∃ s2, NewInMemoryStore.load (.doc roundtripStore.save) = .ok s2 ∧
      ∀ id, s2.vectors.lookup id = roundtripStore.vectors.lookup id := by
  exact inMemoryStore_save_load_roundtrip roundtripStore (by decide)

/-! ## Claim C7: unknown identifiers and missing snapshot file -/

/-- C7 (amended): `InMemoryStore.Get` and `InMemoryStore.Delete` report a
not-found error for an absent identifier, and `Load` of a missing file
succeeds and leaves a fresh store empty; `VectorMemory.Get`, however,
returns a nil entry with a nil error for an absent identifier. -/
theorem unknown_id_and_missing_load (s : InMemoryStore) (vm : VectorMemory)
    (id jd : String)
    (h1 : s.vectors.lookup id = none) (h2 : vm.entries.lookup jd = none) :
    s.get id = .error ("vector not found: " ++ id) ∧
    s.delete id = .error ("vector not found: " ++ id) ∧
    vm.get jd = (none, none) ∧
    NewInMemoryStore.load .missing = .ok NewInMemoryStore ∧
    NewInMemoryStore.count = 0 := by
  refine ⟨?_, ?_, ?_, rfl, rfl⟩
  · rw [InMemoryStore.get, h1]
  · rw [InMemoryStore.delete, h1]
  · rw [VectorMemory.get, h2]

/-- C7 counterexample: on the concrete empty `VectorMemory` and the absent
identifier `"missing"`, `Get` succeeds silently (nil entry, nil error)
instead of reporting a not-found condition. -/
theorem vectorMemory_get_unknown_silent :
    (VectorMemory.mk [] []).entries.lookup "missing" = none ∧
    VectorMemory.get (VectorMemory.mk [] []) "missing" = (none, none) :=
  ⟨rfl, rfl⟩

theorem unknown_id_and_missing_load_witness :
    NewInMemoryStore.get "ghost" = .error ("vector not found: " ++ "ghost") ∧
    NewInMemoryStore.delete "ghost" = .error ("vector not found: " ++ "ghost") ∧
    NewVectorMemory.get "gone" = (none, none) ∧
    NewInMemoryStore.load .missing = .ok NewInMemoryStore ∧
    NewInMemoryStore.count = 0 :=
  unknown_id_and_missing_load NewInMemoryStore NewVectorMemory "ghost" "gone" rfl rfl

/-! ## Claim C5: zero-magnitude vectors and the Newton sqrt slip -/

/-- Supporting fact: `vector.Similarity` (which uses `math.Sqrt`, exact at
0) does return 0 when an operand has zero magnitude. -/
theorem similarity_zero_vector (msqrt : ℚ → ℚ) (h0 : msqrt 0 = 0) :
    Similarity msqrt [0] [2] = 0 := by
  norm_num [Similarity, h0]

/-- C5 (code bug): on a zero-magnitude operand the memory package's
`cosineSimilarity` returns NaN, not 0 — its hand-written Newton `sqrt`
computes `0/0` for input 0 and the `normA == 0` guard fails on NaN.  The
unequal-length rule does hold (result 0), in both implementations. -/
theorem cosineSimilarity_zero_vector_nan :
    cosineSimilarity [0] [2] = none ∧
    cosineSimilarity [0, 0] [2, 0] = none ∧
    cosineSimilarity [1] [1, 2] = some 0 ∧
    (∀ msqrt : ℚ → ℚ, Similarity msqrt [1] [1, 2] = 0) := by
  refine ⟨?_, ?_, ?_, ?_⟩
  · norm_num [cosineSimilarity, sqrtGo, sqrtLoop, fdiv, fadd, fmul, flt, fIsZero]
  · norm_num [cosineSimilarity, sqrtGo, sqrtLoop, fdiv, fadd, fmul, flt, fIsZero]
  · norm_num [cosineSimilarity]
  · intro msqrt; norm_num [Similarity]

/-! ## Consolidation machinery (claims C3 and C8) -/


theorem consolidateStep_eq_move (embedder : Option EmbedFn) (now : Int)
    (m : MemoryStore) (e : MemoryEntry)
    (hold : nsPerHour < now - e.timestamp) (hemb : embedOk embedder e) :
    consolidateStep embedder now m e = m.moveToLongTerm e (embVal embedder e) := by
  cases embedder with
  | none => simp [consolidateStep, hold, embVal]
  | some f =>
    obtain ⟨v, hv⟩ := hemb
    simp [consolidateStep, hold, embVal, hv]

theorem consolidateStep_buffer_sublist (embedder : Option EmbedFn) (now : Int)
    (m : MemoryStore) (e : MemoryEntry) :
    (consolidateStep embedder now m e).shortTerm.buffer.Sublist m.shortTerm.buffer := by
  by_cases hold : nsPerHour < now - e.timestamp
  · cases embedder with
    | none =>
      simp only [consolidateStep, if_pos hold, MemoryStore.moveToLongTerm,
        ConversationBuffer.remove]
      exact List.eraseP_sublist _
    | some f =>
      cases hf : f e.content with
      | error err =>
        simp only [consolidateStep, if_pos hold, hf]
        exact List.Sublist.refl _
      | ok v =>
        simp only [consolidateStep, if_pos hold, hf, MemoryStore.moveToLongTerm,
          ConversationBuffer.remove]
        exact List.eraseP_sublist _
  · simp only [consolidateStep, if_neg hold]
    exact List.Sublist.refl _

theorem fold_consolidate_buffer_sublist (embedder : Option EmbedFn) (now : Int)
    (L : List MemoryEntry) (m : MemoryStore) :
    ((L.foldl (consolidateStep embedder now) m).shortTerm.buffer).Sublist
      m.shortTerm.buffer := by
  induction L generalizing m with
  | nil => exact List.Sublist.refl _
  | cons a t ih =>
    rw [List.foldl_cons]
    exact (ih _).trans (consolidateStep_buffer_sublist embedder now m a)

theorem consolidateStep_lookup_preserved (embedder : Option EmbedFn) (now : Int)
    (m : MemoryStore) (a : MemoryEntry) (k : String)
    (h : a.ID ≠ k ∨ ¬ (nsPerHour < now - a.timestamp ∧ embedOk embedder a)) :
    (consolidateStep embedder now m a).longTerm.entries.lookup k
        = m.longTerm.entries.lookup k ∧
    (consolidateStep embedder now m a).longTerm.vectors.lookup k
        = m.longTerm.vectors.lookup k := by
  by_cases hold : nsPerHour < now - a.timestamp
  · cases embedder with
    | none =>
      have hne : a.ID ≠ k := by
        rcases h with h | h
        · exact h
        · exact absurd ⟨hold, trivial⟩ h
      simp only [consolidateStep, if_pos hold, MemoryStore.moveToLongTerm,
        VectorMemory.add]
      exact ⟨lookup_mapUpsert_ne _ _ _ _ (Ne.symm hne),
             lookup_mapUpsert_ne _ _ _ _ (Ne.symm hne)⟩
    | some f =>
      cases hf : f a.content with
      | error err =>
        simp only [consolidateStep, if_pos hold, hf]
        exact ⟨trivial, trivial⟩
      | ok v =>
        have hne : a.ID ≠ k := by
          rcases h with h | h
          · exact h
          · exact absurd ⟨hold, ⟨v, hf⟩⟩ h
        simp only [consolidateStep, if_pos hold, hf, MemoryStore.moveToLongTerm,
          VectorMemory.add]
        exact ⟨lookup_mapUpsert_ne _ _ _ _ (Ne.symm hne),
               lookup_mapUpsert_ne _ _ _ _ (Ne.symm hne)⟩
  · simp only [consolidateStep, if_neg hold]
    exact ⟨trivial, trivial⟩

theorem fold_consolidate_lookup_preserved (embedder : Option EmbedFn) (now : Int)
    (L : List MemoryEntry) (m : MemoryStore) (k : String)
    (h : ∀ a ∈ L, a.ID ≠ k ∨ ¬ (nsPerHour < now - a.timestamp ∧ embedOk embedder a)) :
    ((L.foldl (consolidateStep embedder now) m).longTerm.entries.lookup k
        = m.longTerm.entries.lookup k) ∧
    ((L.foldl (consolidateStep embedder now) m).longTerm.vectors.lookup k
        = m.longTerm.vectors.lookup k) := by
  induction L generalizing m with
  | nil => exact ⟨rfl, rfl⟩
  | cons a t ih =>
    rw [List.foldl_cons]
    have hstep := consolidateStep_lookup_preserved embedder now m a k (h a (by simp))
    have hrest := ih (consolidateStep embedder now m a) (fun x hx => h x (by simp [hx]))
    exact ⟨hrest.1.trans hstep.1, hrest.2.trans hstep.2⟩

theorem consolidateStep_mem_preserved (embedder : Option EmbedFn) (now : Int)
    (m : MemoryStore) (a e : MemoryEntry)
    (he : e ∈ m.shortTerm.buffer)
    (h : a.ID ≠ e.ID ∨ ¬ (nsPerHour < now - a.timestamp ∧ embedOk embedder a)) :
    e ∈ (consolidateStep embedder now m a).shortTerm.buffer := by
  by_cases hold : nsPerHour < now - a.timestamp
  · cases embedder with
    | none =>
      have hne : a.ID ≠ e.ID := by
        rcases h with h | h
        · exact h
        · exact absurd ⟨hold, trivial⟩ h
      simp only [consolidateStep, if_pos hold, MemoryStore.moveToLongTerm,
        ConversationBuffer.remove]
      refine (List.mem_eraseP_of_neg ?_).mpr he
      simp only [beq_iff_eq]
      exact fun hc => hne hc.symm
    | some f =>
      cases hf : f a.content with
      | error err =>
        simp only [consolidateStep, if_pos hold, hf]
        exact he
      | ok v =>
        have hne : a.ID ≠ e.ID := by
          rcases h with h | h
          · exact h
          · exact absurd ⟨hold, ⟨v, hf⟩⟩ h
        simp only [consolidateStep, if_pos hold, hf, MemoryStore.moveToLongTerm,
          ConversationBuffer.remove]
        refine (List.mem_eraseP_of_neg ?_).mpr he
        simp only [beq_iff_eq]
        exact fun hc => hne hc.symm
  · simp only [consolidateStep, if_neg hold]
    exact he

theorem fold_consolidate_mem_preserved (embedder : Option EmbedFn) (now : Int)
    (L : List MemoryEntry) (m : MemoryStore) (e : MemoryEntry)
    (he : e ∈ m.shortTerm.buffer)
    (h : ∀ a ∈ L, a.ID ≠ e.ID ∨ ¬ (nsPerHour < now - a.timestamp ∧ embedOk embedder a)) :
    e ∈ (L.foldl (consolidateStep embedder now) m).shortTerm.buffer := by
  induction L generalizing m with
  | nil => exact he
  | cons a t ih =>
    rw [List.foldl_cons]
    exact ih _ (consolidateStep_mem_preserved embedder now m a e he (h a (by simp)))
      (fun x hx => h x (by simp [hx]))

/-- After erasing the (at most one, by pairwise distinctness) entry with
identifier `k`, no entry with identifier `k` remains. -/
theorem eraseP_id_all_ne (l : List MemoryEntry) (k : String)
    (hdist : l.Pairwise (fun a b => a.ID ≠ b.ID)) :
    ∀ x ∈ l.eraseP (fun y => y.ID == k), x.ID ≠ k := by
  induction l with
  | nil => intro x hx; simp at hx
  | cons a t ih =>
    by_cases ha : a.ID = k
    · rw [List.eraseP_cons_of_pos (by simp [ha])]
      intro x hx
      have hne := (List.pairwise_cons.mp hdist).1 x hx
      rw [← ha]
      exact fun hc => hne hc.symm
    · rw [List.eraseP_cons_of_neg (by simp [ha])]
      intro x hx
      rcases List.mem_cons.mp hx with hx | hx
      · subst hx; exact ha
      · exact ih (List.pairwise_cons.mp hdist).2 x hx

/-- The shared consolidation lemma: a candidate in the processed list that
is old enough and embeddable is moved — after the whole pass its
identifier is gone from the short-term buffer and maps to the identical
entry (and its vector) in long-term memory. -/
theorem fold_consolidate_moves (embedder : Option EmbedFn) (now : Int)
    (L : List MemoryEntry) (m : MemoryStore) (e : MemoryEntry)
    (hdistB : m.shortTerm.buffer.Pairwise (fun a b => a.ID ≠ b.ID))
    (hdistL : L.Pairwise (fun a b => a.ID ≠ b.ID))
    (he : e ∈ L)
    (hold : nsPerHour < now - e.timestamp) (hemb : embedOk embedder e) :
    (∀ x ∈ (L.foldl (consolidateStep embedder now) m).shortTerm.buffer, x.ID ≠ e.ID) ∧
    (L.foldl (consolidateStep embedder now) m).longTerm.entries.lookup e.ID = some e ∧
    (L.foldl (consolidateStep embedder now) m).longTerm.vectors.lookup e.ID
      = some (embVal embedder e) := by
  induction L generalizing m with
  | nil => cases he
  | cons a t ih =>
    rw [List.foldl_cons]
    rcases List.mem_cons.mp he with rfl | het
    · -- the candidate is the head of the processed list
      rw [consolidateStep_eq_move embedder now m e hold hemb]
      have hbuf1 : ∀ x ∈ (m.moveToLongTerm e (embVal embedder e)).shortTerm.buffer,
          x.ID ≠ e.ID := by
        intro x hx
        exact eraseP_id_all_ne m.shortTerm.buffer e.ID hdistB x hx
      have hids : ∀ a2 ∈ t, a2.ID ≠ e.ID ∨
          ¬ (nsPerHour < now - a2.timestamp ∧ embedOk embedder a2) := by
        intro a2 ha2
        exact Or.inl (fun hc => ((List.pairwise_cons.mp hdistL).1 a2 ha2) hc.symm)
      refine ⟨?_, ?_, ?_⟩
      · intro x hx
        exact hbuf1 x ((fold_consolidate_buffer_sublist embedder now t _).subset hx)
      · rw [(fold_consolidate_lookup_preserved embedder now t _ e.ID hids).1]
        simp only [MemoryStore.moveToLongTerm, VectorMemory.add]
        exact lookup_mapUpsert_self _ _ _
      · rw [(fold_consolidate_lookup_preserved embedder now t _ e.ID hids).2]
        simp only [MemoryStore.moveToLongTerm, VectorMemory.add]
        exact lookup_mapUpsert_self _ _ _
    · -- the candidate sits further down the processed list
      refine ih (consolidateStep embedder now m a) ?_ (List.pairwise_cons.mp hdistL).2 het
      exact List.Pairwise.sublist (consolidateStep_buffer_sublist embedder now m a) hdistB

theorem getRecent_pairwise (cb : ConversationBuffer) (n : Int)
    (h : cb.buffer.Pairwise (fun a b => a.ID ≠ b.ID)) :
    (cb.getRecent n).Pairwise (fun a b => a.ID ≠ b.ID) := by
  unfold ConversationBuffer.getRecent
  apply List.Pairwise.sublist (List.take_sublist _ _)
  rw [List.pairwise_reverse]
  exact h.imp (fun hab => Ne.symm hab)

theorem getRecent_mem_buffer (cb : ConversationBuffer) (n : Int) :
    ∀ e ∈ cb.getRecent n, e ∈ cb.buffer := by
  intro e he
  unfold ConversationBuffer.getRecent at he
  exact List.mem_reverse.mp ((List.take_sublist _ _).subset he)

theorem pairwise_id_cases (L : List MemoryEntry) (e : MemoryEntry)
    (hdist : L.Pairwise (fun a b => a.ID ≠ b.ID)) (he : e ∈ L) :
    ∀ a ∈ L, a = e ∨ a.ID ≠ e.ID := by
  induction L with
  | nil => intro a ha; cases ha
  | cons b t ih =>
    rcases List.mem_cons.mp he with rfl | het
    · intro a ha
      rcases List.mem_cons.mp ha with rfl | hat
      · exact Or.inl rfl
      · exact Or.inr (fun hc => ((List.pairwise_cons.mp hdist).1 a hat) hc.symm)
    · intro a ha
      rcases List.mem_cons.mp ha with rfl | hat
      · exact Or.inr ((List.pairwise_cons.mp hdist).1 e het)
      · exact ih (List.pairwise_cons.mp hdist).2 het a hat

/-- C3 (amended): every entry among the 20 most recent short-term entries
(the snapshot `Consolidate` iterates) that is older than one hour — and
whose embedding succeeds, or no embedder is configured — is moved into
long-term memory: afterwards its identifier is absent from the
conversation buffer and maps to the identical entry in `VectorMemory`;
with no embedder it is stored with a nil vector.  Entry identifiers are
assumed pairwise distinct, as the time-derived generator ensures. -/
theorem consolidate_moves_recent_old (m : MemoryStore) (embedder : Option EmbedFn)
    (now : Int)
    (hdist : m.shortTerm.buffer.Pairwise (fun a b => a.ID ≠ b.ID))
    (e : MemoryEntry) (he : e ∈ m.shortTerm.getRecent 20)
    (hold : nsPerHour < now - e.timestamp)
    (hemb : embedOk embedder e) :
    ∃ m2, m.consolidate embedder now = .ok m2 ∧
      (∀ x ∈ m2.shortTerm.buffer, x.ID ≠ e.ID) ∧
      m2.longTerm.entries.lookup e.ID = some e ∧
      m2.longTerm.vectors.lookup e.ID = some (embVal embedder e) := by
  have h := fold_consolidate_moves embedder now (m.shortTerm.getRecent 20) m e hdist
    (getRecent_pairwise m.shortTerm 20 hdist) he hold hemb
  exact ⟨_, rfl, h.1, h.2.1, h.2.2⟩


/-- C3 counterexample: with 21 entries all older than one hour in the
buffer, the oldest one is not among `GetRecent(20)` and therefore survives
`Consolidate` in short-term memory, never reaching long-term memory. -/
theorem consolidate_misses_oldest :
    nsPerHour < 2 * nsPerHour - (ce "a").timestamp ∧
    ∃ m2, c3store.consolidate none (2 * nsPerHour) = .ok m2 ∧
      ce "a" ∈ m2.shortTerm.buffer ∧
      m2.longTerm.entries.lookup "a" = none := by
  refine ⟨by decide, _, rfl, ?_, ?_⟩
  · decide
  · decide

theorem consolidate_moves_recent_old_witness :
    ∃ m2, (MemoryStore.consolidate
        { shortTerm := { maxSize := 50, buffer := [ce "w1"] },
          longTerm := NewVectorMemory, workingSet := { items := [] },
          config := DefaultConfig } none (2 * nsPerHour)) = .ok m2 ∧
      (∀ x ∈ m2.shortTerm.buffer, x.ID ≠ (ce "w1").ID) ∧
      m2.longTerm.entries.lookup (ce "w1").ID = some (ce "w1") ∧
      m2.longTerm.vectors.lookup (ce "w1").ID = some (embVal none (ce "w1")) := by
  exact consolidate_moves_recent_old _ none (2 * nsPerHour) (by decide) (ce "w1")
    (by decide) (by decide) trivial

/-- C8: an embedding failure for one candidate does not abort the
consolidation pass: the failed entry stays in short-term memory and is not
promoted, `Consolidate` still returns without error, and every other old
candidate whose embedding succeeds is still consolidated. -/
theorem consolidate_skips_failed_embedding (m : MemoryStore) (f : EmbedFn)
    (now : Int) (e : MemoryEntry) (err : String)
    (hdist : m.shortTerm.buffer.Pairwise (fun a b => a.ID ≠ b.ID))
    (he : e ∈ m.shortTerm.getRecent 20)
    (hold : nsPerHour < now - e.timestamp)
    (hfail : f e.content = .error err)
    (hnotin : m.longTerm.entries.lookup e.ID = none) :
    ∃ m2, m.consolidate (some f) now = .ok m2 ∧
      e ∈ m2.shortTerm.buffer ∧
      m2.longTerm.entries.lookup e.ID = none ∧
      (∀ e2 ∈ m.shortTerm.getRecent 20, nsPerHour < now - e2.timestamp →
        (∃ v, f e2.content = .ok v) →
        (∀ x ∈ m2.shortTerm.buffer, x.ID ≠ e2.ID) ∧
        m2.longTerm.entries.lookup e2.ID = some e2) := by
  have hdistL := getRecent_pairwise m.shortTerm 20 hdist
  have hcases := pairwise_id_cases _ e hdistL he
  have hcond : ∀ a ∈ m.shortTerm.getRecent 20, a.ID ≠ e.ID ∨
      ¬ (nsPerHour < now - a.timestamp ∧ embedOk (some f) a) := by
    intro a ha
    rcases hcases a ha with rfl | hne
    · refine Or.inr (fun hc => ?_)
      obtain ⟨v, hv⟩ := hc.2
      rw [hfail] at hv
      cases hv
    · exact Or.inl hne
  refine ⟨_, rfl, ?_, ?_, ?_⟩
  · exact fold_consolidate_mem_preserved (some f) now _ m e
      (getRecent_mem_buffer m.shortTerm 20 e he) hcond
  · rw [(fold_consolidate_lookup_preserved (some f) now _ m e.ID hcond).1]
    exact hnotin
  · intro e2 he2 hold2 hemb2
    have h := fold_consolidate_moves (some f) now _ m e2 hdist hdistL he2 hold2 hemb2
    exact ⟨h.1, h.2.1⟩


theorem consolidate_skips_failed_embedding_witness :
    ∃ m2, (MemoryStore.consolidate
        { shortTerm := { maxSize := 50, buffer := [ce "w2"] },
          longTerm := NewVectorMemory, workingSet := { items := [] },
          config := DefaultConfig } (some failingEmbedder) (2 * nsPerHour)) = .ok m2 ∧
      ce "w2" ∈ m2.shortTerm.buffer ∧
      m2.longTerm.entries.lookup (ce "w2").ID = none ∧
      (∀ e2 ∈ (ConversationBuffer.mk 50 [ce "w2"]).getRecent 20,
        nsPerHour < 2 * nsPerHour - e2.timestamp →
        (∃ v, failingEmbedder e2.content = .ok v) →
        (∀ x ∈ m2.shortTerm.buffer, x.ID ≠ e2.ID) ∧
        m2.longTerm.entries.lookup e2.ID = some e2) := by
  exact consolidate_skips_failed_embedding _ failingEmbedder (2 * nsPerHour) (ce "w2")
    "connection refused" (by decide) (by decide) (by decide) rfl rfl

/-! ## Claim C10: GetContext never returns an error -/

/-- C10: `GetContext` returns a nil error for every store state, query
embedding and token budget; the long-term search itself never fails; and a
failed long-term search would be silently discarded by the `if err == nil`
guard — the long-term phase keeps the parts built so far — rather than be
propagated to the caller. -/
theorem getContext_never_errors :
    (∀ (m : MemoryStore) (embedding : List ℚ) (maxTokens : Int),
      ∃ s, m.getContext embedding maxTokens = .ok s) ∧
    (∀ (vm : VectorMemory) (q : List ℚ) (lim : Int),
      ∃ rs, vm.search q lim = .ok rs) ∧
    (∀ (err : String) (budget : Int) (cut : ℚ) (parts : List String),
      longTermPhase (.error err) budget cut parts = parts) :=
  ⟨fun _ _ _ => ⟨_, rfl⟩, fun _ _ _ => ⟨_, rfl⟩, fun _ _ _ _ => rfl⟩

/-! ## Claim C4: search result ordering -/


/-- C4 (code bug): the zero-magnitude stored vector `[0]` scores NaN
against the query `[2]` (the broken Newton sqrt, cf. C5), the exchange
sort cannot displace a NaN pivot, and `Search` returns the NaN-scored
result ahead of the score-1 result: the output is not in descending order
of similarity. -/
theorem vectorMemory_search_not_descending :
    ∃ rs, c4vm.search [2] 10 = .ok rs ∧
      rs.map (fun r => r.score) = [none, some 1] ∧
      ¬ scoresDescending rs := by
  have hza : cosineSimilarity [2] [0] = none := by
    norm_num [cosineSimilarity, sqrtGo, sqrtLoop, fadd, fmul, fdiv, flt, fIsZero]
  have hzb : cosineSimilarity [2] [2] = some 1 := by
    norm_num [cosineSimilarity, sqrtGo, sqrtLoop, fadd, fmul, fdiv, flt, fIsZero]
  have heval : c4vm.search [2] 10 = .ok
      [{ ID := "za", score := none, content := "zero",
         metadata := { ID := "", content := "zero", timestamp := 0 } },
       { ID := "zb", score := some 1, content := "two",
         metadata := { ID := "", content := "two", timestamp := 0 } }] := by
    simp only [c4vm, VectorMemory.search, List.map_cons, List.map_nil, hza, hzb]
    norm_num [exchangeSort, exchangeSortGo, exchangePass, fgt, flt, unixSeconds,
      List.lookup]
    decide
  refine ⟨_, heval, by norm_num, ?_⟩
  simp [scoresDescending, fge]

/-! Supporting development for C4: `InMemoryStore.Search`, which scores
with the correct `Similarity`, does satisfy all the claimed properties. -/

theorem insertScoredDesc_mem (x z : String × VectorEntry × ℚ)
    (l : List (String × VectorEntry × ℚ)) (hz : z ∈ insertScoredDesc x l) :
    z = x ∨ z ∈ l := by
  induction l with
  | nil => simp [insertScoredDesc] at hz; exact Or.inl hz
  | cons y ys ih =>
    rw [insertScoredDesc] at hz
    by_cases hc : y.2.2 ≤ x.2.2
    · rw [if_pos hc] at hz
      rcases List.mem_cons.mp hz with rfl | hz2
      · exact Or.inl rfl
      · exact Or.inr hz2
    · rw [if_neg hc] at hz
      rcases List.mem_cons.mp hz with rfl | hz2
      · exact Or.inr (List.mem_cons_self _ _)
      · rcases ih hz2 with h | h
        · exact Or.inl h
        · exact Or.inr (List.mem_cons_of_mem _ h)

theorem insertScoredDesc_length (x : String × VectorEntry × ℚ)
    (l : List (String × VectorEntry × ℚ)) :
    (insertScoredDesc x l).length = l.length + 1 := by
  induction l with
  | nil => rfl
  | cons y ys ih =>
    rw [insertScoredDesc]
    by_cases hc : y.2.2 ≤ x.2.2
    · rw [if_pos hc]; rfl
    · rw [if_neg hc]; simp [ih]

theorem insertScoredDesc_pairwise (x : String × VectorEntry × ℚ)
    (l : List (String × VectorEntry × ℚ))
    (h : l.Pairwise (fun a b => b.2.2 ≤ a.2.2)) :
    (insertScoredDesc x l).Pairwise (fun a b => b.2.2 ≤ a.2.2) := by
  induction l with
  | nil => simp [insertScoredDesc]
  | cons y ys ih =>
    rw [insertScoredDesc]
    by_cases hc : y.2.2 ≤ x.2.2
    · rw [if_pos hc]
      refine List.pairwise_cons.mpr ⟨?_, h⟩
      intro z hz
      rcases List.mem_cons.mp hz with rfl | hzys
      · exact hc
      · exact le_trans ((List.pairwise_cons.mp h).1 z hzys) hc
    · rw [if_neg hc]
      have hyx : x.2.2 ≤ y.2.2 := le_of_not_le hc
      refine List.pairwise_cons.mpr ⟨?_, ih (List.pairwise_cons.mp h).2⟩
      intro z hz
      rcases insertScoredDesc_mem x z ys hz with rfl | hzys
      · exact hyx
      · exact (List.pairwise_cons.mp h).1 z hzys

theorem sortScoredDesc_pairwise (l : List (String × VectorEntry × ℚ)) :
    (sortScoredDesc l).Pairwise (fun a b => b.2.2 ≤ a.2.2) := by
  unfold sortScoredDesc
  induction l with
  | nil => simp
  | cons x xs ih => exact insertScoredDesc_pairwise x _ ih

theorem sortScoredDesc_length (l : List (String × VectorEntry × ℚ)) :
    (sortScoredDesc l).length = l.length := by
  unfold sortScoredDesc
  induction l with
  | nil => rfl
  | cons x xs ih => rw [List.foldr_cons, insertScoredDesc_length, ih]; rfl

/-- Supporting theorem for C4: `InMemoryStore.Search`, whose scores come
from the correct `Similarity`, returns results sorted by descending
similarity, at most `limit` of them (for a positive limit), at most
`Count()` of them, and an empty list on the empty store. -/
theorem inMemoryStore_search_props (msqrt : ℚ → ℚ) (s : InMemoryStore)
    (query : List ℚ) (limit : Int) (hpos : 0 < limit) :
    ∃ rs, s.search msqrt query limit = .ok rs ∧
      rs.Pairwise (fun a b => b.score ≤ a.score) ∧
      (rs.length : Int) ≤ limit ∧
      rs.length ≤ s.count ∧
      (s.vectors = [] → rs = []) := by
  have hnpos : ¬ (limit ≤ 0) := by omega
  refine ⟨_, rfl, ?_, ?_, ?_, ?_⟩
  · -- descending order survives truncation and projection
    simp only [InMemoryStore.search, if_neg hnpos]
    rw [List.pairwise_map]
    have hsorted := sortScoredDesc_pairwise
      (s.vectors.map (fun p => (p.1, p.2, Similarity msqrt query p.2.vector)))
    split
    · exact List.Pairwise.sublist (List.take_sublist _ _) hsorted
    · exact hsorted
  · simp only [InMemoryStore.search, if_neg hnpos]
    rw [List.length_map]
    split
    · rename_i hgt
      rw [List.length_take]
      omega
    · rename_i hle
      omega
  · simp only [InMemoryStore.search, InMemoryStore.count, if_neg hnpos]
    rw [List.length_map]
    have hlen := sortScoredDesc_length
      (s.vectors.map (fun p => (p.1, p.2, Similarity msqrt query p.2.vector)))
    rw [List.length_map] at hlen
    split
    · rw [List.length_take]
      omega
    · omega
  · intro hempty
    simp [InMemoryStore.search, hempty, if_neg hnpos, sortScoredDesc]

theorem inMemoryStore_search_props_witness :
    ∃ rs, NewInMemoryStore.search id [1] 3 = .ok rs ∧
      rs.Pairwise (fun a b => b.score ≤ a.score) ∧
      (rs.length : Int) ≤ 3 ∧
      rs.length ≤ NewInMemoryStore.count ∧
      (NewInMemoryStore.vectors = [] → rs = []) :=
  inMemoryStore_search_props id NewInMemoryStore [1] 3 (by decide)

/-! ## Claim C1: three-phase context assembly -/

theorem joinParts_cons_ne (p : String) (rest : List String) (h : rest ≠ []) :
    joinParts (p :: rest) = p ++ "\n" ++ joinParts rest := by
  cases rest with
  | nil => exact absurd rfl h
  | cons q qs => rfl

theorem joinParts_append_ne (pre l : List String) (h : l ≠ []) :
    ∃ A, joinParts (pre ++ l) = A ++ joinParts l := by
  induction pre with
  | nil => exact ⟨"", by rw [List.nil_append, String.empty_append]⟩
  | cons p ps ih =>
    obtain ⟨A, hA⟩ := ih
    have hne : ps ++ l ≠ [] := by
      intro hc
      exact h (List.append_eq_nil.mp hc).2
    refine ⟨p ++ "\n" ++ A, ?_⟩
    rw [List.cons_append, joinParts_cons_ne p _ hne, hA]
    simp [String.append_assoc]

/-- Splitting the joined context string at three marked fragments. -/
theorem joinParts_three_split (w mp rp : String) (P1 P2 P3 : List String) :
    ∃ S1 S2 S3, joinParts (w :: (P1 ++ mp :: (P2 ++ rp :: P3)))
      = w ++ S1 ++ mp ++ S2 ++ rp ++ S3 := by
  obtain ⟨A2, hA2⟩ := joinParts_append_ne P2 (rp :: P3) (by simp)
  obtain ⟨A1, hA1⟩ := joinParts_append_ne P1 (mp :: (P2 ++ rp :: P3)) (by simp)
  have hS3 : ∃ S3, joinParts (rp :: P3) = rp ++ S3 := by
    cases P3 with
    | nil => exact ⟨"", by simp [joinParts]⟩
    | cons q qs => exact ⟨"\n" ++ joinParts (q :: qs), by
        rw [joinParts_cons_ne rp _ (by simp), String.append_assoc]⟩
  obtain ⟨S3, hS3⟩ := hS3
  refine ⟨"\n" ++ A1, "\n" ++ A2, S3, ?_⟩
  rw [joinParts_cons_ne w _ (by simp), hA1, joinParts_cons_ne mp _ (by simp), hA2, hS3]
  simp [String.append_assoc]

/-- What the phase-1 loop appends: a (possibly empty) block of
`[WORKING]`-tagged fragments, never exceeding the budget, and nonempty as
soon as there is an entry and budget head-room. -/
theorem appendWorking_spec (es : List MemoryEntry) (b : Int) (parts : List String) :
    ∃ wl, appendWorking es b parts = parts ++ wl ∧
      (∀ p ∈ wl, ∃ c, p = "[WORKING]: " ++ c) ∧
      ((parts.length : Int) ≤ b → ((appendWorking es b parts).length : Int) ≤ b) ∧
      (es ≠ [] → (parts.length : Int) < b → wl ≠ []) := by
  induction es generalizing parts with
  | nil =>
    refine ⟨[], by simp [appendWorking], ?_, ?_, ?_⟩
    · intro p hp; simp at hp
    · intro hle; simpa [appendWorking] using hle
    · intro h; exact absurd rfl h
  | cons e rest ih =>
    by_cases hb : b ≤ (parts.length : Int)
    · refine ⟨[], ?_, ?_, ?_, ?_⟩
      · simp [appendWorking, if_pos hb]
      · intro p hp; simp at hp
      · intro hle
        simp only [appendWorking, if_pos hb]
        exact hle
      · intro _ hlt; omega
    · have hlt : (parts.length : Int) < b := by omega
      obtain ⟨wl, heq, htags, hlen, _⟩ := ih (parts ++ ["[WORKING]: " ++ e.content])
      refine ⟨("[WORKING]: " ++ e.content) :: wl, ?_, ?_, ?_, ?_⟩
      · simp only [appendWorking, if_neg hb, heq]
        simp
      · intro p hp
        rcases List.mem_cons.mp hp with rfl | hp2
        · exact ⟨e.content, rfl⟩
        · exact htags p hp2
      · intro _
        simp only [appendWorking, if_neg hb]
        refine hlen ?_
        rw [List.length_append]
        simp
        omega
      · intro _ _; simp

/-- What the phase-2 loop appends: a block of `[MEMORY (score)]`-tagged
fragments, never exceeding the budget, and nonempty as soon as there is
budget head-room and some result at or above the cutoff. -/
theorem appendMemory_spec (rs : List MemSearchResult) (b : Int) (cut : ℚ)
    (parts : List String) :
    ∃ ml, appendMemory rs b cut parts = parts ++ ml ∧
      (∀ p ∈ ml, ∃ sc c, p = "[MEMORY (" ++ sc ++ ")]: " ++ c) ∧
      ((parts.length : Int) ≤ b → ((appendMemory rs b cut parts).length : Int) ≤ b) ∧
      ((parts.length : Int) < b →
        (∃ r ∈ rs, fge r.score (some cut) = true) → ml ≠ []) := by
  induction rs generalizing parts with
  | nil =>
    refine ⟨[], by simp [appendMemory], ?_, ?_, ?_⟩
    · intro p hp; simp at hp
    · intro hle; simpa [appendMemory] using hle
    · intro _ h
      obtain ⟨r, hr, _⟩ := h
      simp at hr
  | cons r rest ih =>
    by_cases hb : b ≤ (parts.length : Int)
    · refine ⟨[], ?_, ?_, ?_, ?_⟩
      · simp [appendMemory, if_pos hb]
      · intro p hp; simp at hp
      · intro hle
        simp only [appendMemory, if_pos hb]
        exact hle
      · intro hlt _; omega
    · have hlt : (parts.length : Int) < b := by omega
      by_cases hsc : fge r.score (some cut) = true
      · obtain ⟨ml, heq, htags, hlen, _⟩ :=
          ih (parts ++ ["[MEMORY (" ++ formatScore2 r.score ++ ")]: " ++ r.content])
        refine ⟨("[MEMORY (" ++ formatScore2 r.score ++ ")]: " ++ r.content) :: ml,
          ?_, ?_, ?_, ?_⟩
        · simp only [appendMemory, if_neg hb, hsc, if_pos, heq]
          simp
        · intro p hp
          rcases List.mem_cons.mp hp with rfl | hp2
          · exact ⟨formatScore2 r.score, r.content, rfl⟩
          · exact htags p hp2
        · intro _
          simp only [appendMemory, if_neg hb, hsc, if_pos]
          refine hlen ?_
          rw [List.length_append]
          simp
          omega
        · intro _ _; simp
      · obtain ⟨ml, heq, htags, hlen, hne⟩ := ih parts
        refine ⟨ml, ?_, htags, ?_, ?_⟩
        · simp only [appendMemory, if_neg hb, hsc, if_neg, heq]
          simp
        · intro hle
          simp only [appendMemory, if_neg hb, hsc, if_neg]
          exact hlen hle
        · intro _ hex
          obtain ⟨r2, hr2, hge2⟩ := hex
          rcases List.mem_cons.mp hr2 with rfl | hr2t
          · exact absurd hge2 hsc
          · exact hne hlt ⟨r2, hr2t, hge2⟩

theorem budget_bounds (mt : Int) (h : 3 ≤ mt) :
    1 ≤ mt.tdiv 3 ∧ mt.tdiv 3 < (mt * 2).tdiv 3 := by
  rw [Int.tdiv_eq_ediv (by omega) (by omega), Int.tdiv_eq_ediv (by omega) (by omega)]
  omega

theorem getRecent_ne_nil (cb : ConversationBuffer) (hs : cb.buffer ≠ []) :
    cb.getRecent 10 ≠ [] := by
  unfold ConversationBuffer.getRecent
  intro hc
  rw [List.take_eq_nil_iff] at hc
  rcases hc with hc | hc
  · simp at hc
  · exact hs (by simpa using hc)

/-- C1 (amended): for a budget of at least 3 tokens, a store state with at
least one working item and at least one short-term entry, and a long-term
similarity search (limited to 5 candidates) yielding some result at or
above the configured cutoff, `GetContext` assembles the three phases in
order: a nonempty `[WORKING]` block capped by `maxTokens/3` fragments,
then a nonempty `[MEMORY]` block with the total capped by `maxTokens*2/3`
fragments, then the `[RECENT]` block of the 10 most recent short-term
entries appended unconditionally — so the returned string contains a
`[WORKING]` fragment before a `[MEMORY]` fragment before a `[RECENT]`
fragment. -/
theorem getContext_three_phase_order (m : MemoryStore) (emb : List ℚ)
    (maxTokens : Int)
    (h3 : 3 ≤ maxTokens)
    (hw : m.workingSet.items ≠ [])
    (hs : m.shortTerm.buffer ≠ [])
    (hm : ∃ rs, m.longTerm.search emb 5 = .ok rs ∧
      ∃ r ∈ rs, fge r.score (some m.config.similarityCut) = true) :
    ∃ wl ml,
      m.getContext emb maxTokens = .ok (joinParts (wl ++ ml ++
        (m.shortTerm.getRecent 10).map (fun e => "[RECENT]: " ++ e.content))) ∧
      (∀ p ∈ wl, ∃ c, p = "[WORKING]: " ++ c) ∧
      (∀ p ∈ ml, ∃ sc c, p = "[MEMORY (" ++ sc ++ ")]: " ++ c) ∧
      wl ≠ [] ∧ ml ≠ [] ∧
      (wl.length : Int) ≤ maxTokens.tdiv 3 ∧
      ((wl ++ ml).length : Int) ≤ (maxTokens * 2).tdiv 3 ∧
      (∃ S1 S2 S3, m.getContext emb maxTokens
        = .ok ("[WORKING]" ++ S1 ++ "[MEMORY" ++ S2 ++ "[RECENT]" ++ S3)) := by
  obtain ⟨rs, hrs, hex⟩ := hm
  obtain ⟨hb1, hb12⟩ := budget_bounds maxTokens h3
  obtain ⟨wl, hwl_eq, hwtags, hwcap, hwne⟩ :=
    appendWorking_spec m.workingSet.getAll (maxTokens.tdiv 3) []
  rw [List.nil_append] at hwl_eq
  have hgetAll_ne : m.workingSet.getAll ≠ [] := by
    unfold WorkingMemory.getAll
    simpa using hw
  have hwl_ne : wl ≠ [] := hwne hgetAll_ne (by simp; omega)
  have hwl_len : (wl.length : Int) ≤ maxTokens.tdiv 3 := by
    have h := hwcap (by simp; omega)
    rwa [hwl_eq] at h
  obtain ⟨ml, hml_eq, hmtags, hmcap, hmne⟩ :=
    appendMemory_spec rs ((maxTokens * 2).tdiv 3) m.config.similarityCut wl
  have hml_ne : ml ≠ [] := hmne (by omega) hex
  have hml_len : ((wl ++ ml).length : Int) ≤ (maxTokens * 2).tdiv 3 := by
    have h := hmcap (by omega)
    rwa [hml_eq] at h
  have hgc : m.getContext emb maxTokens = .ok (joinParts (wl ++ ml ++
      (m.shortTerm.getRecent 10).map (fun e => "[RECENT]: " ++ e.content))) := by
    unfold MemoryStore.getContext longTermPhase
    simp only [hrs, hwl_eq, hml_eq]
  refine ⟨wl, ml, hgc, hwtags, hmtags, hwl_ne, hml_ne, hwl_len, hml_len, ?_⟩
  obtain ⟨w, wtail, rfl⟩ := List.exists_cons_of_ne_nil hwl_ne
  obtain ⟨mp, mtail, rfl⟩ := List.exists_cons_of_ne_nil hml_ne
  obtain ⟨re, rtail, hre⟩ := List.exists_cons_of_ne_nil (getRecent_ne_nil m.shortTerm hs)
  obtain ⟨wc, hwc⟩ := hwtags w (by simp)
  obtain ⟨sc, mc, hmc⟩ := hmtags mp (by simp)
  have hlist : (w :: wtail) ++ (mp :: mtail) ++
      (m.shortTerm.getRecent 10).map (fun e => "[RECENT]: " ++ e.content)
      = w :: (wtail ++ mp :: (mtail ++ ("[RECENT]: " ++ re.content) ::
          rtail.map (fun e => "[RECENT]: " ++ e.content))) := by
    rw [hre]
    simp
  obtain ⟨S1, S2, S3, hsplit⟩ := joinParts_three_split w mp
    ("[RECENT]: " ++ re.content) wtail mtail
    (rtail.map (fun e => "[RECENT]: " ++ e.content))
  refine ⟨": " ++ wc ++ S1, " (" ++ sc ++ ")]: " ++ mc ++ S2,
    ": " ++ re.content ++ S3, ?_⟩
  rw [hgc, hlist, hsplit, hwc, hmc]
  congr 1
  have hW : ("[WORKING]: " : String) = "[WORKING]" ++ ": " := rfl
  have hM : ("[MEMORY (" : String) = "[MEMORY" ++ " (" := rfl
  have hR : ("[RECENT]: " : String) = "[RECENT]" ++ ": " := rfl
  rw [hW, hM, hR]
  simp only [String.append_assoc]

/-! Concrete stores and evaluations for the C1 witness and counterexample. -/

theorem cosineSimilarity_q2_v0 : cosineSimilarity [2] [0] = none := by
  norm_num [cosineSimilarity, sqrtGo, sqrtLoop, fadd, fmul, fdiv, flt, fIsZero]

theorem cosineSimilarity_q2_v2 : cosineSimilarity [2] [2] = some 1 := by
  norm_num [cosineSimilarity, sqrtGo, sqrtLoop, fadd, fmul, fdiv, flt, fIsZero]

theorem score_ge_cut : fge (some 1) (some ((7 : ℚ) / 10)) = true := by
  norm_num [fge]


theorem c1Store_search_eval : c1Store.longTerm.search [2] 5 = .ok [gRes] := by
  simp only [c1Store, VectorMemory.search, List.map_cons, List.map_nil,
    cosineSimilarity_q2_v2]
  norm_num [exchangeSort, exchangeSortGo, exchangePass, unixSeconds, List.lookup,
    gRes, gEntry]

theorem formatScore2_one : formatScore2 (some 1) = "1.00" := by
  have hfloor : (⌊|(1 : ℚ)| * 100 + 1 / 2⌋ : Int) = 100 := by norm_num
  simp only [formatScore2, hfloor]
  norm_num
  decide

theorem c1_cex1_eval : c1Store.getContext [2] 2 = .ok "[MEMORY (1.00)]: topic\n[RECENT]: s" := by
  unfold MemoryStore.getContext longTermPhase
  rw [c1Store_search_eval]
  simp only [c1Store, DefaultConfig, WorkingMemory.getAll, ConversationBuffer.getRecent]
  norm_num [appendWorking, appendMemory, gRes, score_ge_cut, formatScore2_one,
    joinParts, ce, wItem1]
  decide


theorem c1NaN_eval : c1NaNStore.getContext [2] 30 = .ok "[WORKING]: task\n[RECENT]: s" := by
  have hsearch : c1NaNStore.longTerm.search [2] 5 = .ok
      [{ ID := "z1", score := none, content := "z1",
         metadata := { ID := "", content := "z1", timestamp := 0 } },
       { ID := "z2", score := none, content := "z2",
         metadata := { ID := "", content := "z2", timestamp := 0 } },
       { ID := "z3", score := none, content := "z3",
         metadata := { ID := "", content := "z3", timestamp := 0 } },
       { ID := "z4", score := none, content := "z4",
         metadata := { ID := "", content := "z4", timestamp := 0 } },
       { ID := "z5", score := none, content := "z5",
         metadata := { ID := "", content := "z5", timestamp := 0 } }] := by
    simp only [c1NaNStore, VectorMemory.search, List.map_cons, List.map_nil,
      cosineSimilarity_q2_v0, cosineSimilarity_q2_v2]
    norm_num [exchangeSort, exchangeSortGo, exchangePass, fgt, flt, unixSeconds,
      List.lookup, ce]
    decide
  unfold MemoryStore.getContext longTermPhase
  rw [hsearch]
  simp only [c1NaNStore, DefaultConfig, WorkingMemory.getAll, ConversationBuffer.getRecent]
  norm_num [appendWorking, appendMemory, fge, joinParts, ce, wItem1]
  decide


theorem begMatch_append (pat B : List Char) : begMatch pat (pat ++ B) = true := by
  induction pat with
  | nil => rfl
  | cons a pa ih => simp [begMatch, ih]

theorem hasSeg_of_begMatch (pat s : List Char) (h : begMatch pat s = true) :
    hasSeg pat s = true := by
  cases s with
  | nil => exact h
  | cons x xs => simp [hasSeg, h]

theorem hasSeg_append (pat A B : List Char) : hasSeg pat (A ++ pat ++ B) = true := by
  induction A with
  | nil =>
    rw [List.nil_append]
    exact hasSeg_of_begMatch pat (pat ++ B) (begMatch_append pat B)
  | cons a A2 ih =>
    have hl : (a :: A2) ++ pat ++ B = a :: (A2 ++ pat ++ B) := by simp
    rw [hl, hasSeg, ih, Bool.or_true]

theorem no_split_of_hasSeg_false (s t : String) (h : hasSeg t.data s.data = false) :
    ¬ ∃ A B, s = A ++ t ++ B := by
  rintro ⟨A, B, rfl⟩
  rw [show (A ++ t ++ B).data = A.data ++ t.data ++ B.data by
    simp [String.data_append]] at h
  rw [hasSeg_append] at h
  cases h

/-- C1 counterexample: the claim as stated fails in two ways on concrete
stores satisfying its premises (a working item, a long-term entry whose
similarity to the query is at or above the cutoff, a short-term entry).
With `maxTokens = 2` the phase-1 budget `maxTokens/3` is 0 and the output
contains no `[WORKING]` fragment at all; and with five zero-magnitude
long-term vectors iterated ahead of the above-cutoff entry, their NaN
scores fill the whole 5-candidate search result, so with `maxTokens = 30`
the output contains no `[MEMORY]` fragment. -/
theorem getContext_order_cex :
    (c1Store.workingSet.items ≠ [] ∧ c1Store.shortTerm.buffer ≠ [] ∧
      fge (cosineSimilarity [2] [2]) (some c1Store.config.similarityCut) = true ∧
      ∃ out, c1Store.getContext [2] 2 = .ok out ∧
        ¬ ∃ A B, out = A ++ "[WORKING]" ++ B) ∧
    (c1NaNStore.workingSet.items ≠ [] ∧ c1NaNStore.shortTerm.buffer ≠ [] ∧
      ("g", ([2] : List ℚ)) ∈ c1NaNStore.longTerm.vectors ∧
      fge (cosineSimilarity [2] [2]) (some c1NaNStore.config.similarityCut) = true ∧
      ∃ out, c1NaNStore.getContext [2] 30 = .ok out ∧
        ¬ ∃ A B, out = A ++ "[MEMORY" ++ B) := by
  constructor
  · refine ⟨by decide, by decide, ?_, "[MEMORY (1.00)]: topic\n[RECENT]: s",
      c1_cex1_eval, ?_⟩
    · rw [cosineSimilarity_q2_v2]
      exact score_ge_cut
    · exact no_split_of_hasSeg_false _ _ (by decide)
  · refine ⟨by decide, by decide, by decide, ?_, "[WORKING]: task\n[RECENT]: s",
      c1NaN_eval, ?_⟩
    · rw [cosineSimilarity_q2_v2]
      exact score_ge_cut
    · exact no_split_of_hasSeg_false _ _ (by decide)

theorem getContext_three_phase_order_witness :
    ∃ wl ml,
      c1Store.getContext [2] 9 = .ok (joinParts (wl ++ ml ++
        (c1Store.shortTerm.getRecent 10).map (fun e => "[RECENT]: " ++ e.content))) ∧
      (∀ p ∈ wl, ∃ c, p = "[WORKING]: " ++ c) ∧
      (∀ p ∈ ml, ∃ sc c, p = "[MEMORY (" ++ sc ++ ")]: " ++ c) ∧
      wl ≠ [] ∧ ml ≠ [] ∧
      (wl.length : Int) ≤ (9 : Int).tdiv 3 ∧
      ((wl ++ ml).length : Int) ≤ ((9 : Int) * 2).tdiv 3 ∧
      (∃ S1 S2 S3, c1Store.getContext [2] 9
        = .ok ("[WORKING]" ++ S1 ++ "[MEMORY" ++ S2 ++ "[RECENT]" ++ S3)) :=
  getContext_three_phase_order c1Store [2] 9 (by decide) (by decide) (by decide)
    ⟨[gRes], c1Store_search_eval, gRes, List.mem_singleton_self gRes, score_ge_cut⟩

/-! ## Similarity symmetry (supporting material for the numerical claim) -/

/-- Symmetry of `vector.Similarity` holds for any square-root routine
(and in IEEE-754 itself, since multiplication commutes exactly and both
orders sum in the same index order); the self-similarity and range parts
of the numerical claim, by contrast, depend on floating-point rounding. -/
theorem similarity_symm (msqrt : ℚ → ℚ) (a b : List ℚ) :
    Similarity msqrt a b = Similarity msqrt b a := by
  unfold Similarity
  by_cases h : a.length = b.length
  · have hzip : List.zipWith (fun x y => x * y) a b = List.zipWith (fun x y => x * y) b a :=
      List.zipWith_comm_of_comm _ (fun x y => mul_comm x y) a b
    by_cases hA : msqrt ((a.map (fun x => x * x)).foldl (· + ·) 0) = 0 <;>
      by_cases hB : msqrt ((b.map (fun x => x * x)).foldl (· + ·) 0) = 0 <;>
      simp [h, hzip, hA, hB, mul_comm]
  · have h2 : b.length ≠ a.length := fun hc => h hc.symm
    simp [h, h2]
